import Mathlib

/-!
Formal model of the autosub subtitle generator (src/autosub/__init__.py):
the energy-based speech-region detector, the percentile threshold, the
speech recognizer's retry/parsing loop, and the two-stage worker-pool
pipeline of generate_subtitles.  Real numbers of the Python source are
modelled as rationals; fallible Python code (exceptions, out-of-range
indexing) is modelled with Option/Except.
-/

namespace Autosub

/-- Python list indexing: a non-negative index counts from the front, a
negative index counts from the back, and an out-of-range access raises
(modelled as none). -/
def pyIndex (l : List ℚ) (i : ℤ) : Option ℚ :=
  let j : ℤ := if i < 0 then i + l.length else i
  if 0 ≤ j ∧ j < (l.length : ℤ) then l.get? j.toNat else none

/-- Python sorted on a list of numbers. -/
def pySorted (l : List ℚ) : List ℚ :=
  l.insertionSort (fun a b => a ≤ b)

/-- Embedding of percentile (source lines 46-54): sort, take rank
k = (n-1)*percent, return the element at k when floor k = ceil k, and
otherwise blend the floor- and ceiling-indexed elements weighted by the
distance from k.  Indexing errors (the empty list) give none. -/
def percentile (arr : List ℚ) (percent : ℚ) : Option ℚ :=
  let s := pySorted arr
  let k : ℚ := ((s.length : ℚ) - 1) * percent
  let f : ℤ := ⌊k⌋
  let c : ℤ := ⌈k⌉
  if f = c then pyIndex s f
  else
    match pyIndex s f, pyIndex s c with
    | some a0, some a1 => some (a0 * ((c : ℚ) - k) + a1 * (k - (f : ℚ)))
    | _, _ => none

/-- Modelled from the spec wording of the threshold computation: the
standard linear-interpolation percentile of the order statistics, undefined
on an empty sequence.  Used only to compare against the source's
percentile. -/
def percentileSpec (arr : List ℚ) (p : ℚ) : Option ℚ :=
  let s := pySorted arr
  if s.length = 0 then none
  else
    let k : ℚ := ((s.length : ℚ) - 1) * p
    if (⌊k⌋ : ℤ) = ⌈k⌉ then s.get? (⌊k⌋).toNat
    else
      match s.get? (⌊k⌋).toNat, s.get? (⌈k⌉).toNat with
      | some a0, some a1 => some (a0 * ((⌈k⌉ : ℚ) - k) + a1 * (k - (⌊k⌋ : ℚ)))
      | _, _ => none

/-- Loop state of find_speech_regions: the elapsed-time cursor, the
region_start variable (none models Python None) and the accumulated
regions list. -/
structure DetectState where
  elapsed : ℚ
  region_start : Option ℚ
  regions : List (ℚ × ℚ)
deriving DecidableEq

/-- Python truthiness of the region_start variable: None and 0 are falsy,
every other number is truthy. -/
def rsTruthy : Option ℚ → Bool
  | none => false
  | some x => decide (x ≠ 0)

/-- One iteration of the frame sweep of find_speech_regions (source lines
193-204), processing a single frame energy and then advancing the elapsed
time by the chunk duration d. -/
def detectStep (threshold mn mx d : ℚ) (s : DetectState) (energy : ℚ) :
    DetectState :=
  let is_silence : Bool := decide (energy ≤ threshold)
  let rs : ℚ := s.region_start.getD 0
  let max_exceeded : Bool :=
    rsTruthy s.region_start && decide (mx ≤ s.elapsed - rs)
  let s1 : DetectState :=
    if (max_exceeded || is_silence) && rsTruthy s.region_start then
      if mn ≤ s.elapsed - rs then
        { elapsed := s.elapsed, region_start := none,
          regions := s.regions ++ [(rs, s.elapsed)] }
      else s
    else if !rsTruthy s.region_start && !is_silence then
      { elapsed := s.elapsed, region_start := some s.elapsed,
        regions := s.regions }
    else s
  { elapsed := s1.elapsed + d, region_start := s1.region_start,
    regions := s1.regions }

/-- The frame sweep of find_speech_regions as a fold over the frame
energies. -/
def detectSweep (threshold mn mx d : ℚ) (es : List ℚ) (s : DetectState) :
    DetectState :=
  es.foldl (detectStep threshold mn mx d) s

/-- Embedding of find_speech_regions (source lines 172-205), parametrised
by the frame energies (non-negative integers from audioop.rms), the chunk
duration d = frame_width / rate, and the two region-size bounds.  The
threshold is the 20th percentile of the energies; the percentile of an
empty energy list raises, modelled as none. -/
def find_speech_regions (energies : List ℕ) (d mn mx : ℚ) :
    Option (List (ℚ × ℚ)) :=
  let qs : List ℚ := energies.map (fun (e : ℕ) => (e : ℚ))
  (percentile qs (1 / 5)).map
    (fun threshold =>
      (detectSweep threshold mn mx d qs
        { elapsed := 0, region_start := none, regions := [] }).regions)

/-- Invariant of the frame sweep used to bound emitted region durations:
every emitted region is shorter than mx + d, and an open truthy region has
been open for less than mx + d. -/
def detectInv (mx d : ℚ) (s : DetectState) : Prop :=
  (∀ p ∈ s.regions, p.2 - p.1 < mx + d) ∧
  (rsTruthy s.region_start = true → s.elapsed - s.region_start.getD 0 < mx + d)

/-- Bytes of an extracted FLAC clip. -/
abbrev Clip : Type := List ℕ

/-- Python exceptions relevant to the pipeline: a KeyboardInterrupt (the
cancellation signal) and the CalledProcessError raised by
subprocess.check_output when the external tool exits non-zero. -/
inductive PyExn where
  | keyboardInterrupt : PyExn
  | calledProcessError : PyExn
deriving DecidableEq

instance {ε α : Type} [DecidableEq ε] [DecidableEq α] :
    DecidableEq (Except ε α) := fun x y =>
  match x, y with
  | .ok a, .ok b =>
    if h : a = b then isTrue (by rw [h])
    else isFalse (fun hc => h (Except.ok.inj hc))
  | .ok a, .error f => isFalse (fun hc => Except.noConfusion hc)
  | .error e, .ok b => isFalse (fun hc => Except.noConfusion hc)
  | .error e, .error f =>
    if h : e = f then isTrue (by rw [h])
    else isFalse (fun hc => h (Except.error.inj hc))

/-- A try/except KeyboardInterrupt block: 'body' is the computation in the
try, 'handler' the value of the except branch; every other exception
propagates. -/
def tryCatchKI {α : Type} (body : Except PyExn α) (handler : Except PyExn α) :
    Except PyExn α :=
  match body with
  | .error .keyboardInterrupt => handler
  | other => other

/-- Behaviour of one FLACConverter worker invocation: the external
conversion subprocess completes with the clip bytes, exits non-zero, or a
KeyboardInterrupt arrives during the call. -/
inductive SubprocessEvent where
  | completes : Clip → SubprocessEvent
  | exitsNonZero : SubprocessEvent
  | interrupted : SubprocessEvent
deriving DecidableEq

/-- Body of the try block of FLACConverter (source lines 68-78):
check_output raises CalledProcessError on a non-zero exit, a
KeyboardInterrupt during the call raises, otherwise the clip bytes are
returned. -/
def FLACConverter.body (ev : SubprocessEvent) : Except PyExn Clip :=
  match ev with
  | .completes out => .ok out
  | .exitsNonZero => .error .calledProcessError
  | .interrupted => .error .keyboardInterrupt

/-- Embedding of FLACConverter (source lines 67-81): the body wrapped in
try/except KeyboardInterrupt: return, which converts an interrupt into the
absent result None. -/
def FLACConverter.call (ev : SubprocessEvent) : Except PyExn (Option Clip) :=
  tryCatchKI ((FLACConverter.body ev).map some) (.ok none)

/-- Outcome of one requests.post attempt inside SpeechRecognizer: a
ConnectionError, a KeyboardInterrupt during the attempt, or an HTTP
response whose newline-separated lines are each modelled by the optional
transcript that json.loads plus the result/alternative/transcript lookup
yields for that line (none when the bare except fires). -/
inductive Attempt where
  | connError : Attempt
  | interrupted : Attempt
  | response : List (Option String) → Attempt
deriving DecidableEq

/-- The first response line that yields a transcript. -/
def firstTranscript (lines : List (Option String)) : Option String :=
  lines.findSome? (fun o => o)

/-- Python line[:1].upper() + line[1:], capitalising the first character. -/
def capitalizeFirst (s : String) : String :=
  match s.data with
  | [] => s
  | ch :: cs => String.mk (ch.toUpper :: cs)

/-- The retry loop of SpeechRecognizer (source lines 93-109).  The first
argument of the recursion is the number of remaining range(retries)
iterations, the second the number of attempts already begun (which is also
the index of the next attempt, since every iteration posts exactly once).
A ConnectionError falls through to the next iteration, as does a response
in which no line yields a transcript; the first transcript found is
returned capitalised together with the attempt count; a KeyboardInterrupt
raises out of the loop; an exhausted loop returns Python's implicit
None. -/
def SpeechRecognizer.loop (env : ℕ → Attempt) :
    ℕ → ℕ → Except PyExn (Option String × ℕ)
  | 0, posts => .ok (none, posts)
  | n + 1, posts =>
    match env posts with
    | .interrupted => .error .keyboardInterrupt
    | .connError => SpeechRecognizer.loop env n (posts + 1)
    | .response lines =>
      match firstTranscript lines with
      | some t => .ok (some (capitalizeFirst t), posts + 1)
      | none => SpeechRecognizer.loop env n (posts + 1)

/-- Embedding of SpeechRecognizer (source lines 91-112): the retry loop
wrapped in try/except KeyboardInterrupt: return. -/
def SpeechRecognizer.call (retries : ℕ) (env : ℕ → Attempt) :
    Except PyExn (Option String) :=
  tryCatchKI ((SpeechRecognizer.loop env retries 0).map Prod.fst) (.ok none)

/-- Whether an attempt ends the retry loop: an interrupt ends it by
raising, a response ends it exactly when some line yields a transcript, a
ConnectionError never ends it. -/
def attemptTerminal : Attempt → Bool
  | .connError => false
  | .interrupted => true
  | .response lines => (firstTranscript lines).isSome

/-- Closed-form description of the retry loop used to state its
characterisation: the result is determined by the first terminal attempt
among the first retries attempts, and is the exhausted-None result when
there is none. -/
def specRecognize (retries : ℕ) (env : ℕ → Attempt) :
    Except PyExn (Option String × ℕ) :=
  match (List.range retries).find? (fun i => attemptTerminal (env i)) with
  | none => .ok (none, retries)
  | some i =>
    match env i with
    | .interrupted => .error .keyboardInterrupt
    | .response lines =>
      .ok ((firstTranscript lines).map capitalizeFirst, i + 1)
    | .connError => .ok (none, retries)

/-- Completion events of one pool.imap stage: the workers finish in the
arbitrary order given by the order list; each completion carries the
submission index of its item together with the worker's result on it. -/
def imapEvents {α β : Type} (f : α → β) (xs : List α) (order : List ℕ) :
    List (ℕ × β) :=
  order.filterMap (fun i => (xs.get? i).map (fun x => (i, f x)))

/-- Delivery of buffered completion events in submission order, one result
per requested index (none if an index was never completed): this is the
ordered-delivery contract of pool.imap, which yields results in submission
order regardless of completion order. -/
def deliverOrdered {β : Type} (events : List (ℕ × β)) :
    List ℕ → Option (List β)
  | [] => some []
  | i :: is =>
    match (events.find? (fun e => e.1 == i)).map Prod.snd,
        deliverOrdered events is with
    | some b, some bs => some (b :: bs)
    | _, _ => none

/-- One pool.imap stage under a given completion order: deliver the results
for submission indices 0..n-1 in submission order. -/
def poolImapOrdered {α β : Type} (f : α → β) (xs : List α)
    (order : List ℕ) : Option (List β) :=
  deliverOrdered (imapEvents f xs order) (List.range xs.length)

/-- The two chained pool.imap stages of generate_subtitles (source lines
270-281) with pure per-item workers, under arbitrary completion orders of
the two worker pools. -/
def pipelineTwoStage {α γ δ : Type} (conv : α → γ) (recog : γ → δ)
    (regions : List α) (order1 order2 : List ℕ) : Option (List δ) :=
  match poolImapOrdered conv regions order1 with
  | none => none
  | some clips => poolImapOrdered recog clips order2

/-- Observable side effects of generate_subtitles: terminating the worker
pool (the except KeyboardInterrupt branch), writing the subtitle file
(recording the destination path and the timed subtitles handed to the
formatter), and removing the temporary audio file. -/
inductive Eff where
  | poolTerminate : Eff
  | writeFile : String → List ((ℚ × ℚ) × Option String) → Eff
  | removeAudio : Eff
deriving DecidableEq

/-- Python truthiness of a transcript: None and the empty string are
falsy. -/
def transcriptTruthy : Option String → Bool
  | none => false
  | some s => !s.isEmpty

/-- The timed_subtitles list of source line 289: zip regions with their
positionally aligned transcripts and keep only the truthy transcripts. -/
def timedSubtitles (regions : List (ℚ × ℚ)) (ts : List (Option String)) :
    List ((ℚ × ℚ) × Option String) :=
  (regions.zip ts).filter (fun p => transcriptTruthy p.2)

/-- One pool.imap stage as iterated by the parent process, sequentialised
in submission order (which pipelineTwoStage shows is the order in which
results are observed): i is the submission index of the head item; intr =
some k injects a KeyboardInterrupt received by the parent at iteration k;
an exception raised inside a worker is re-raised at delivery and aborts
the iteration. -/
def poolImapRun {α β : Type} (worker : α → Except PyExn β)
    (intr : Option ℕ) : ℕ → List α → Except PyExn (List β)
  | _, [] => .ok []
  | i, x :: xs =>
    if intr = some i then .error .keyboardInterrupt
    else
      match worker x with
      | .error e => .error e
      | .ok b => (poolImapRun worker intr (i + 1) xs).map (fun bs => b :: bs)

/-- Embedding of generate_subtitles (source lines 249-304) downstream of
region detection (the regions list and the two per-item workers are
parameters).  When the regions list is nonempty the two stages run inside
a try block whose except KeyboardInterrupt branch terminates the pool and
re-raises; any other exception propagates without terminating the pool.
After the stages (or immediately, for an empty regions list) the timed
subtitles are zipped, formatted and written to dest and the temporary
audio file is removed.  The result records the effect trace and the
returned destination path or propagated exception. -/
def generate_subtitles (regions : List (ℚ × ℚ))
    (convWorker : (ℚ × ℚ) → Except PyExn (Option Clip))
    (recogWorker : Option Clip → Except PyExn (Option String))
    (intr1 intr2 : Option ℕ) (dest : String) :
    List Eff × Except PyExn String :=
  match regions with
  | [] =>
    ([Eff.writeFile dest (timedSubtitles [] []), Eff.removeAudio], .ok dest)
  | r :: rs =>
    match poolImapRun convWorker intr1 0 (r :: rs) with
    | .error PyExn.keyboardInterrupt =>
      ([Eff.poolTerminate], .error PyExn.keyboardInterrupt)
    | .error e => ([], .error e)
    | .ok clips =>
      match poolImapRun recogWorker intr2 0 clips with
      | .error PyExn.keyboardInterrupt =>
        ([Eff.poolTerminate], .error PyExn.keyboardInterrupt)
      | .error e => ([], .error e)
      | .ok ts =>
        ([Eff.writeFile dest (timedSubtitles (r :: rs) ts),
          Eff.removeAudio], .ok dest)

/-! Helper lemmas about single steps and runs of the frame sweep. -/

lemma detectStep_silent_none (θ mn mx d t : ℚ) (R : List (ℚ × ℚ)) (e : ℚ)
    (h : e ≤ θ) :
    detectStep θ mn mx d ⟨t, none, R⟩ e = ⟨t + d, none, R⟩ := by
  simp [detectStep, rsTruthy, decide_eq_true h]

lemma detectStep_open (θ mn mx d t : ℚ) (R : List (ℚ × ℚ)) (e : ℚ)
    (h : ¬ e ≤ θ) :
    detectStep θ mn mx d ⟨t, none, R⟩ e = ⟨t + d, some t, R⟩ := by
  simp [detectStep, rsTruthy, decide_eq_false h]

lemma detectStep_loud_inside (θ mn mx d t r : ℚ) (R : List (ℚ × ℚ)) (e : ℚ)
    (hr : r ≠ 0) (h : ¬ e ≤ θ) (hmx : ¬ mx ≤ t - r) :
    detectStep θ mn mx d ⟨t, some r, R⟩ e = ⟨t + d, some r, R⟩ := by
  simp [detectStep, rsTruthy, decide_eq_false h, decide_eq_false hmx,
    decide_eq_true hr]

lemma detectStep_close_emit (θ mn mx d t r : ℚ) (R : List (ℚ × ℚ)) (e : ℚ)
    (hr : r ≠ 0) (h : e ≤ θ) (hmn : mn ≤ t - r) :
    detectStep θ mn mx d ⟨t, some r, R⟩ e
      = ⟨t + d, none, R ++ [(r, t)]⟩ := by
  simp [detectStep, rsTruthy, decide_eq_true h, decide_eq_true hr, hmn]

lemma detectSweep_cons (θ mn mx d : ℚ) (e : ℚ) (es : List ℚ)
    (s : DetectState) :
    detectSweep θ mn mx d (e :: es) s
      = detectSweep θ mn mx d es (detectStep θ mn mx d s e) := rfl

lemma detectSweep_append (θ mn mx d : ℚ) (a b : List ℚ) (s : DetectState) :
    detectSweep θ mn mx d (a ++ b) s
      = detectSweep θ mn mx d b (detectSweep θ mn mx d a s) := by
  simp [detectSweep, List.foldl_append]

lemma detectSweep_silent_none (θ mn mx d : ℚ) (es : List ℚ)
    (h : ∀ e ∈ es, e ≤ θ) (t : ℚ) (R : List (ℚ × ℚ)) :
    detectSweep θ mn mx d es ⟨t, none, R⟩
      = ⟨t + es.length * d, none, R⟩ := by
  induction es generalizing t with
  | nil => simp [detectSweep]
  | cons e es ih =>
    rw [detectSweep_cons, detectStep_silent_none θ mn mx d t R e (h e (by simp)),
      ih (fun x hx => h x (by simp [hx])) (t + d)]
    congr 1
    push_cast [List.length_cons]
    ring

lemma detectSweep_loud (θ mn mx d r : ℚ) (es : List ℚ)
    (hr : r ≠ 0) (hd : 0 ≤ d) (h : ∀ e ∈ es, ¬ e ≤ θ) (t : ℚ)
    (hb : t + es.length * d - r < mx + d) (R : List (ℚ × ℚ)) :
    detectSweep θ mn mx d es ⟨t, some r, R⟩
      = ⟨t + es.length * d, some r, R⟩ := by
  induction es generalizing t with
  | nil => simp [detectSweep]
  | cons e es ih =>
    have hlen : (0:ℚ) ≤ (es.length : ℚ) * d := by positivity
    push_cast [List.length_cons] at hb
    have hexp : ((es.length : ℚ) + 1) * d = (es.length : ℚ) * d + d := by ring
    rw [hexp] at hb
    have hmx : ¬ mx ≤ t - r := by
      intro hc
      linarith
    rw [detectSweep_cons,
      detectStep_loud_inside θ mn mx d t r R e hr (h e (by simp)) hmx,
      ih (fun x hx => h x (by simp [hx])) (t + d) (by linarith)]
    congr 1
    push_cast [List.length_cons]
    ring

/-- C5: the claim as amended.  For a frame sequence consisting of a
nonempty silent prefix, one nonempty non-silent run and a nonempty silent
suffix (silence taken relative to the threshold the detector itself
computes), with positive chunk duration and the run duration between the
two size bounds, find_speech_regions returns exactly the single region
from the start of the run to its end.  The prefix must be nonempty: the
start time of the run must be positive, since a region opened at elapsed
time 0 is falsy for the Python truthiness test on region_start. -/
theorem find_speech_regions_single_run
    (pre run post : List ℕ) (d mn mx θ : ℚ)
    (hθ : percentile ((pre ++ run ++ post).map (fun (e : ℕ) => (e : ℚ)))
            (1 / 5) = some θ)
    (hd : 0 < d) (hpre : pre ≠ []) (hrun : run ≠ []) (hpost : post ≠ [])
    (hs1 : ∀ e ∈ pre, (e : ℚ) ≤ θ)
    (hs2 : ∀ e ∈ run, ¬ (e : ℚ) ≤ θ)
    (hs3 : ∀ e ∈ post, (e : ℚ) ≤ θ)
    (hmn : mn ≤ (run.length : ℚ) * d)
    (hmx : (run.length : ℚ) * d < mx) :
    find_speech_regions (pre ++ run ++ post) d mn mx
      = some [((pre.length : ℚ) * d,
               (pre.length : ℚ) * d + (run.length : ℚ) * d)] := by
  obtain ⟨rh, rt, hr⟩ := List.exists_cons_of_ne_nil hrun
  obtain ⟨ph, pt, hp⟩ := List.exists_cons_of_ne_nil hpost
  subst hr hp
  simp only [find_speech_regions]
  rw [hθ, Option.map_some']
  simp only [Option.some.injEq]
  have ht0pos : 0 < (pre.length : ℚ) * d := by
    have h1 : 0 < pre.length := List.length_pos.mpr hpre
    have h2 : (0:ℚ) < (pre.length : ℚ) := by exact_mod_cast h1
    positivity
  have e1 : detectSweep θ mn mx d (pre.map (fun (e : ℕ) => (e : ℚ)))
      ⟨0, none, []⟩ = ⟨(pre.length : ℚ) * d, none, []⟩ := by
    rw [detectSweep_silent_none θ mn mx d _
      (fun x hx => by
        obtain ⟨a, ha, rfl⟩ := List.mem_map.mp hx
        exact hs1 a ha) 0 []]
    congr 1
    simp [List.length_map]
  have e2 : detectSweep θ mn mx d ((rh :: rt).map (fun (e : ℕ) => (e : ℚ)))
      ⟨(pre.length : ℚ) * d, none, []⟩
      = ⟨(pre.length : ℚ) * d + d + (rt.length : ℚ) * d,
         some ((pre.length : ℚ) * d), []⟩ := by
    rw [List.map_cons, detectSweep_cons,
      detectStep_open θ mn mx d _ [] _ (hs2 rh (List.mem_cons_self rh rt)),
      detectSweep_loud θ mn mx d _ _ ht0pos.ne' hd.le
        (fun x hx => by
          obtain ⟨a, ha, rfl⟩ := List.mem_map.mp hx
          exact hs2 a (List.mem_cons_of_mem rh ha))
        _ (by
          push_cast [List.length_cons, List.length_map] at hmx ⊢
          nlinarith) []]
    congr 2
    simp [List.length_map]
  have e3 : detectSweep θ mn mx d ((ph :: pt).map (fun (e : ℕ) => (e : ℚ)))
      ⟨(pre.length : ℚ) * d + d + (rt.length : ℚ) * d,
        some ((pre.length : ℚ) * d), []⟩
      = ⟨(pre.length : ℚ) * d + d + (rt.length : ℚ) * d + d
           + (pt.length : ℚ) * d, none,
         [((pre.length : ℚ) * d,
           (pre.length : ℚ) * d + d + (rt.length : ℚ) * d)]⟩ := by
    rw [List.map_cons, detectSweep_cons,
      detectStep_close_emit θ mn mx d _ _ [] _ ht0pos.ne'
        (hs3 ph (List.mem_cons_self ph pt))
        (by
          push_cast [List.length_cons] at hmn
          nlinarith),
      detectSweep_silent_none θ mn mx d _
        (fun x hx => by
          obtain ⟨a, ha, rfl⟩ := List.mem_map.mp hx
          exact hs3 a (List.mem_cons_of_mem ph ha)) _ _]
    congr 2
    simp [List.length_map]
  rw [List.map_append, List.map_append, detectSweep_append, detectSweep_append,
    e1, e2, e3]
  simp only [List.nil_append]
  congr 2
  push_cast [List.length_cons]
  ring



lemma detectStep_inv (θ mn mx d e : ℚ) (s : DetectState)
    (hmn : mn ≤ mx) (hmx0 : 0 < mx) (h : detectInv mx d s) :
    detectInv mx d (detectStep θ mn mx d s e) := by
  obtain ⟨t, rs, R⟩ := s
  obtain ⟨hreg, hopen⟩ := h
  simp only [detectInv] at hopen ⊢
  simp only [detectStep]
  split
  · rename_i hg
    simp only [Bool.and_eq_true, Bool.or_eq_true] at hg
    obtain ⟨hor, htr⟩ := hg
    split
    · rename_i hdur
      refine ⟨?_, ?_⟩
      · intro p hp
        rcases List.mem_append.mp hp with hp | hp
        · exact hreg p hp
        · simp only [List.mem_singleton] at hp
          subst hp
          simpa using hopen htr
      · simp [rsTruthy]
    · rename_i hdur
      refine ⟨hreg, ?_⟩
      intro htr2
      have h1 : t - rs.getD 0 < mn := lt_of_not_le hdur
      linarith
  · rename_i hg
    split
    · rename_i hg2
      refine ⟨hreg, ?_⟩
      intro htr2
      simp only [Option.getD_some]
      linarith
    · rename_i hg2
      refine ⟨hreg, ?_⟩
      intro htr2
      have hmaxf : ¬ mx ≤ t - rs.getD 0 := by
        intro hc
        apply hg
        simp only [Bool.and_eq_true, Bool.or_eq_true]
        exact ⟨Or.inl (by simp [htr2, decide_eq_true hc]), htr2⟩
      linarith

lemma detectSweep_inv (θ mn mx d : ℚ) (es : List ℚ) (s : DetectState)
    (hmn : mn ≤ mx) (hmx0 : 0 < mx) (h : detectInv mx d s) :
    detectInv mx d (detectSweep θ mn mx d es s) := by
  induction es generalizing s with
  | nil => exact h
  | cons e es ih =>
    rw [detectSweep_cons]
    exact ih _ (detectStep_inv θ mn mx d e s hmn hmx0 h)

/-- C6: the claim as amended.  A non-silent run longer than max_region_size
is split into multiple emitted regions (long_run_exceeds_max exhibits the
split), but an emitted region may exceed max_region_size by up to one chunk
duration: for every frame sequence, provided min_region_size is at most
max_region_size and max_region_size is positive, every region emitted by
find_speech_regions has duration strictly less than max_region_size plus
the chunk duration. -/
theorem find_speech_regions_duration_bound (energies : List ℕ) (d mn mx : ℚ)
    (hmn : mn ≤ mx) (hmx0 : 0 < mx) (rgs : List (ℚ × ℚ))
    (h : find_speech_regions energies d mn mx = some rgs) :
    ∀ p ∈ rgs, p.2 - p.1 < mx + d := by
  simp only [find_speech_regions] at h
  cases hp : percentile (energies.map (fun (e : ℕ) => (e : ℚ))) (1 / 5) with
  | none => rw [hp] at h; simp at h
  | some θ =>
    rw [hp, Option.map_some'] at h
    have hrgs := (Option.some.inj h).symm
    subst hrgs
    have hinv : detectInv mx d (⟨0, none, []⟩ : DetectState) := by
      constructor
      · intro p hp
        simp at hp
      · intro htr
        simp [rsTruthy] at htr
    exact (detectSweep_inv θ mn mx d _ _ hmn hmx0 hinv).1

/-- C6 counterexample: with chunk duration 1/2, min 1/2 and max 5/4, a run
of five loud frames is split into two regions, and the first emitted
region (1/2, 2) has duration 3/2, which exceeds max_region_size = 5/4, so
the claimed bound duration at most max_region_size is false. -/
theorem long_run_exceeds_max :
    find_speech_regions [0,5,5,5,5,5,0,0,0,0,0,0] (1/2) (1/2) (5/4)
      = some [(1/2, 2), (5/2, 3)]
    ∧ ¬ ((2 : ℚ) - 1/2 ≤ 5/4) := by
  constructor
  · with_unfolding_all decide
  · with_unfolding_all decide

/-- C6 witness: the amended bound evaluated on the first region of the
split run. -/
theorem find_speech_regions_duration_bound_inst :
    (2 : ℚ) - 1 / 2 < 5 / 4 + 1 / 2 :=
  find_speech_regions_duration_bound [0, 5, 5, 5, 5, 5, 0, 0, 0, 0, 0, 0]
    (1 / 2) (1 / 2) (5 / 4) (by norm_num) (by norm_num)
    [(1 / 2, 2), (5 / 2, 3)] (by with_unfolding_all decide)
    ((1 : ℚ) / 2, (2 : ℚ)) (by with_unfolding_all decide)


/-- C1: the claim as amended.  When an open region is closed by a silent
frame and its duration is still below min_region_size, the sweep step
emits nothing at that frame but does NOT clear the open-region marker
(region_start is cleared only on emission, the assignment being inside the
minimum-size test), so the region stays open through the following
silence and a region covering the short run plus enough silence can be
emitted later (short_run_contributes_region exhibits this). -/
theorem detectStep_short_run_keeps_marker (θ mn mx d : ℚ) (s : DetectState)
    (e : ℚ) (hopen : rsTruthy s.region_start = true) (hsil : e ≤ θ)
    (hshort : ¬ mn ≤ s.elapsed - s.region_start.getD 0) :
    (detectStep θ mn mx d s e).regions = s.regions ∧
    (detectStep θ mn mx d s e).region_start = s.region_start := by
  simp [detectStep, decide_eq_true hsil, hopen, hshort]

/-- C1 witness: a concrete short-run closing step that keeps the
marker. -/
theorem detectStep_short_run_keeps_marker_inst :
    (detectStep 0 (1/2) 6 (1/4) ⟨1/2, some (1/4), []⟩ 0).regions = [] ∧
    (detectStep 0 (1/2) 6 (1/4) ⟨1/2, some (1/4), []⟩ 0).region_start
      = some (1/4) := by
  exact detectStep_short_run_keeps_marker 0 (1/2) 6 (1/4)
    ⟨1/2, some (1/4), []⟩ 0 (by with_unfolding_all decide)
    (by with_unfolding_all decide) (by with_unfolding_all decide)

/-- C1 counterexample: a single loud frame (duration 1/4, below the
minimum 1/2) followed by silence does not contribute zero regions as
claimed: the detector emits (1/4, 3/4), a region covering that short run
and the silence after it. -/
theorem short_run_contributes_region :
    find_speech_regions [0,5,0,0,0,0,0,0] (1/4) (1/2) 6
      = some [(1/4, 3/4)]
    ∧ some [((1:ℚ)/4, (3:ℚ)/4)] ≠ (some [] : Option (List (ℚ × ℚ))) := by
  constructor
  · with_unfolding_all decide
  · with_unfolding_all decide

/-- C4: the claim as amended.  For the empty PCM stream the threshold
computation percentile([], 0.2) indexes the empty sorted list at position
-1 and raises an IndexError; find_speech_regions therefore faults instead
of returning the empty region list (modelled: both return none). -/
theorem find_speech_regions_empty_none (d mn mx : ℚ) :
    find_speech_regions [] d mn mx = none
      ∧ percentile [] (1/5) = none := by
  constructor
  · with_unfolding_all rfl
  · with_unfolding_all rfl

/-- C4 counterexample: on the empty energy list the detector does not
return the empty region list: it has no value at all (the percentile
indexing raises). -/
theorem empty_stream_not_empty_list :
    find_speech_regions [] (1/4) (1/2) 6 = none
    ∧ (none : Option (List (ℚ × ℚ))) ≠ some [] := by
  constructor
  · with_unfolding_all rfl
  · with_unfolding_all decide

/-- C5 witness: a silent frame, two loud frames and silence, with chunk
duration 1/2, yields exactly the single region (1/2, 3/2). -/
theorem find_speech_regions_single_run_inst :
    find_speech_regions [0,5,5,0,0,0,0,0,0,0] (1/2) (1/2) 6
      = some [(1/2, 3/2)] := by
  have h := find_speech_regions_single_run [0] [5,5] [0,0,0,0,0,0,0]
    (1/2) (1/2) 6 0 (by with_unfolding_all decide) (by norm_num)
    (by decide) (by decide) (by decide)
    (by intro e he; fin_cases he; with_unfolding_all decide)
    (by intro e he; fin_cases he <;> with_unfolding_all decide)
    (by intro e he; fin_cases he <;> with_unfolding_all decide)
    (by with_unfolding_all decide) (by with_unfolding_all decide)
  norm_num at h
  convert h using 4

/-- C5 counterexample: a run starting at time t0 = 0.  Because a region
opened at elapsed time 0 stores the falsy value 0 in region_start, the
start is re-assigned at the next loud frame and the returned region is
(chunk_duration, t1) = (1/4, 3/4), not (t0, t1) = (0, 3/4). -/
theorem single_run_at_zero_start :
    find_speech_regions [5,5,5,0,0,0,0,0,0,0] (1/4) (1/2) 6
      = some [(1/4, 3/4)]
    ∧ ((1:ℚ)/4, (3:ℚ)/4) ≠ ((0:ℚ), (3:ℚ)/4) := by
  constructor
  · with_unfolding_all decide
  · with_unfolding_all decide


lemma pySorted_perm (l : List ℚ) : (pySorted l).Perm l :=
  List.perm_insertionSort _ l

lemma pySorted_sorted (l : List ℚ) :
    List.Sorted (fun a b => a ≤ b) (pySorted l) :=
  List.sorted_insertionSort _ l

lemma pySorted_eq_of_perm (l l' : List ℚ) (h : l.Perm l') :
    pySorted l = pySorted l' :=
  List.eq_of_perm_of_sorted
    ((pySorted_perm l).trans (h.trans (pySorted_perm l').symm))
    (pySorted_sorted l) (pySorted_sorted l')

lemma pyIndex_of_nonneg (l : List ℚ) (i : ℤ) (h0 : 0 ≤ i)
    (h1 : i < (l.length : ℤ)) : pyIndex l i = l.get? i.toNat := by
  simp only [pyIndex]
  rw [if_neg (not_lt.mpr h0), if_pos ⟨h0, h1⟩]

lemma percentile_eq_spec_single (l : List ℚ) :
    percentile l (1 / 5) = percentileSpec l (1 / 5) := by
  rcases hs : pySorted l with _ | ⟨a, s⟩
  · simp only [percentile, percentileSpec, hs]
    with_unfolding_all decide
  · have hlen : 0 < (pySorted l).length := by rw [hs]; simp
    have hlq : (1 : ℚ) ≤ ((pySorted l).length : ℚ) := by exact_mod_cast hlen
    set n : ℕ := (pySorted l).length with hn
    have hk0 : 0 ≤ ((n : ℚ) - 1) * (1 / 5) := by
      have : (0:ℚ) ≤ (n : ℚ) - 1 := by linarith
      positivity
    have hkle : ((n : ℚ) - 1) * (1 / 5) ≤ ((n : ℤ) : ℚ) - 1 := by
      push_cast
      nlinarith
    have hf0 : 0 ≤ ⌊((n : ℚ) - 1) * (1 / 5)⌋ := Int.floor_nonneg.mpr hk0
    have hfn : ⌊((n : ℚ) - 1) * (1 / 5)⌋ < (n : ℤ) := by
      have h1 : ⌊((n : ℚ) - 1) * (1 / 5)⌋ ≤ ⌊((n : ℤ) : ℚ) - 1⌋ := by
        apply Int.floor_le_floor
        exact hkle
      have h2 : ⌊((n : ℤ) : ℚ) - 1⌋ = (n : ℤ) - 1 := by
        rw [show ((n : ℤ) : ℚ) - 1 = (((n : ℤ) - 1 : ℤ) : ℚ) by push_cast; ring]
        exact Int.floor_intCast _
      omega
    have hc0 : 0 ≤ ⌈((n : ℚ) - 1) * (1 / 5)⌉ := Int.ceil_nonneg hk0
    have hcn : ⌈((n : ℚ) - 1) * (1 / 5)⌉ < (n : ℤ) := by
      have h1 : ⌈((n : ℚ) - 1) * (1 / 5)⌉ ≤ (n : ℤ) - 1 := by
        rw [Int.ceil_le]
        push_cast
        push_cast at hkle
        linarith
      omega
    simp only [percentile, percentileSpec, ← hn]
    rw [if_neg (by omega : ¬ n = 0)]
    rw [pyIndex_of_nonneg _ _ hf0 (by exact_mod_cast hfn),
      pyIndex_of_nonneg _ _ hc0 (by exact_mod_cast hcn)]

/-- C9: for every list of frame energies, the threshold percentile(arr,
0.2) of the source equals the standard linear-interpolation percentile of
the order statistics (percentileSpec, written from the spec wording), and
the result is invariant under any reordering of the input list. -/
theorem percentile_spec_and_perm (l l' : List ℚ) (h : l.Perm l') :
    percentile l (1 / 5) = percentileSpec l (1 / 5)
    ∧ percentile l (1 / 5) = percentile l' (1 / 5) := by
  refine ⟨percentile_eq_spec_single l, ?_⟩
  simp only [percentile]
  rw [pySorted_eq_of_perm l l' h]

/-- C9 witness: the equality and the permutation invariance evaluated on
a concrete three-element list and a reordering of it. -/
theorem percentile_spec_and_perm_inst :
    percentile [3, 1, 2] (1 / 5) = percentileSpec [3, 1, 2] (1 / 5)
    ∧ percentile [3, 1, 2] (1 / 5) = percentile [2, 3, 1] (1 / 5) :=
  percentile_spec_and_perm [3, 1, 2] [2, 3, 1] (by decide)


lemma SpeechRecognizer.loop_eq (env : ℕ → Attempt) :
    ∀ (n p : ℕ),
    SpeechRecognizer.loop env n p =
      match (List.range' p n).find? (fun i => attemptTerminal (env i)) with
      | none => .ok (none, p + n)
      | some i =>
        match env i with
        | .interrupted => .error .keyboardInterrupt
        | .response lines =>
          .ok ((firstTranscript lines).map capitalizeFirst, i + 1)
        | .connError => .ok (none, p + n)
  | 0, p => by
    simp [SpeechRecognizer.loop, List.range']
  | n + 1, p => by
    rw [List.range'_succ]
    cases henv : env p with
    | interrupted =>
      rw [List.find?_cons_of_pos _ (by simp [attemptTerminal, henv])]
      simp [SpeechRecognizer.loop, henv]
    | connError =>
      rw [List.find?_cons_of_neg _ (by simp [attemptTerminal, henv])]
      have ih := SpeechRecognizer.loop_eq env n (p + 1)
      simp only [SpeechRecognizer.loop, henv]
      rw [ih]
      have harith : p + 1 + n = p + (n + 1) := by omega
      rw [harith]
    | response lines =>
      cases hft : firstTranscript lines with
      | some t =>
        rw [List.find?_cons_of_pos _ (by simp [attemptTerminal, henv, hft])]
        simp [SpeechRecognizer.loop, henv, hft]
      | none =>
        rw [List.find?_cons_of_neg _ (by simp [attemptTerminal, henv, hft])]
        have ih := SpeechRecognizer.loop_eq env n (p + 1)
        simp only [SpeechRecognizer.loop, henv, hft]
        rw [ih]
        have harith : p + 1 + n = p + (n + 1) := by omega
        rw [harith]

/-- C7: the claim as amended.  The retry loop of SpeechRecognizer is
characterised by the first terminal attempt among the retries attempts: a
response some of whose lines yields a transcript returns the first such
transcript with its first character capitalised, after attempt index + 1
posts; an interrupt raises; but a successful response in which no line
yields a transcript is NOT terminal: the loop falls through and posts
again, returning the absent transcript only after all retries attempts
are exhausted (contrary to the claim that no further network request is
issued). -/
theorem speechRecognizer_loop_eq_spec (retries : ℕ) (env : ℕ → Attempt) :
    SpeechRecognizer.loop env retries 0 = specRecognize retries env := by
  rw [SpeechRecognizer.loop_eq]
  simp only [specRecognize, List.range_eq_range', Nat.zero_add]

/-- C7 counterexample: with retries = 3, a first successful response with
no usable transcript is followed by a second post (2 attempts, not 1),
whose transcript "Hi" is returned, rather than returning an absent
transcript after the first response as claimed. -/
theorem empty_response_triggers_retry :
    SpeechRecognizer.loop
      (fun i => if i = 0 then Attempt.response [none]
        else if i = 1 then Attempt.response [some "hi"]
        else Attempt.connError) 3 0
      = .ok (some "Hi", 2)
    ∧ (2 : ℕ) ≠ 1 ∧ (some "Hi" : Option String) ≠ none := by
  refine ⟨?_, by decide, by decide⟩
  with_unfolding_all rfl


lemma imapEvents_mem {α β : Type} (f : α → β) (xs : List α) (order : List ℕ)
    (e : ℕ × β) (he : e ∈ imapEvents f xs order) :
    ∃ x, xs.get? e.1 = some x ∧ e.2 = f x := by
  simp only [imapEvents, List.mem_filterMap] at he
  obtain ⟨i, _, hg⟩ := he
  cases hx : xs.get? i with
  | none => rw [hx] at hg; simp at hg
  | some x =>
    rw [hx] at hg
    simp only [Option.map_some', Option.some.injEq] at hg
    subst hg
    exact ⟨x, hx, rfl⟩

lemma imapEvents_find {α β : Type} (f : α → β) (xs : List α) (order : List ℕ)
    (i : ℕ) (hi : i ∈ order) (hlt : i < xs.length) :
    ∃ x, xs.get? i = some x ∧
      (imapEvents f xs order).find? (fun e => e.1 == i) = some (i, f x) := by
  have hx := List.get?_eq_get hlt
  have hmem : (i, f (xs.get ⟨i, hlt⟩)) ∈ imapEvents f xs order := by
    simp only [imapEvents, List.mem_filterMap]
    refine ⟨i, hi, ?_⟩
    rw [hx]
    rfl
  cases hf : (imapEvents f xs order).find? (fun e => e.1 == i) with
  | none =>
    exfalso
    exact absurd (List.find?_eq_none.mp hf _ hmem) (by simp)
  | some e =>
    have hpe : e.1 = i := by
      have := List.find?_some hf
      simpa using this
    obtain ⟨y, hy, hey⟩ := imapEvents_mem f xs order e
      (List.mem_of_find?_eq_some hf)
    rw [hpe, hx] at hy
    have hyx : y = xs.get ⟨i, hlt⟩ := by
      exact (Option.some.inj hy).symm
    refine ⟨xs.get ⟨i, hlt⟩, hx, ?_⟩
    have he2 : e = (i, f (xs.get ⟨i, hlt⟩)) := by
      apply Prod.ext
      · exact hpe
      · rw [hey, hyx]
    rw [← he2]

lemma deliverOrdered_range {α β : Type} (f : α → β) (xs : List α)
    (order : List ℕ) (hmem : ∀ i, i < xs.length → i ∈ order) :
    ∀ (k j : ℕ), j + k = xs.length →
      deliverOrdered (imapEvents f xs order) (List.range' j k)
        = some ((xs.drop j).map f)
  | 0, j => by
    intro hj
    have hdrop : xs.drop j = [] := by
      apply List.drop_eq_nil_of_le
      omega
    simp [deliverOrdered, hdrop]
  | k + 1, j => by
    intro hj
    have hjlt : j < xs.length := by omega
    obtain ⟨x, hx, hfind⟩ := imapEvents_find f xs order j (hmem j hjlt) hjlt
    rw [List.range'_succ]
    simp only [deliverOrdered]
    rw [hfind, deliverOrdered_range f xs order hmem k (j + 1) (by omega)]
    simp only [Option.map_some']
    have hdrop : xs.drop j = xs.get ⟨j, hjlt⟩ :: xs.drop (j + 1) :=
      List.drop_eq_get_cons hjlt
    have hxval : x = xs.get ⟨j, hjlt⟩ := by
      rw [List.get?_eq_get hjlt] at hx
      exact (Option.some.inj hx).symm
    rw [hdrop, hxval]
    rfl

lemma poolImapOrdered_eq_map {α β : Type} (f : α → β) (xs : List α)
    (order : List ℕ) (h : order.Perm (List.range xs.length)) :
    poolImapOrdered f xs order = some (xs.map f) := by
  have hmem : ∀ i, i < xs.length → i ∈ order := fun i hi =>
    h.mem_iff.mpr (List.mem_range.mpr hi)
  unfold poolImapOrdered
  rw [List.range_eq_range']
  have := deliverOrdered_range f xs order hmem xs.length 0 (by omega)
  simpa using this

/-- C2: for every region list and all completion orders of the two worker
pools (any permutation of the submission indices), the two chained
pool.imap stages of generate_subtitles deliver exactly one result slot per
region in original submission order, and the pipeline output equals the
sequential map of the converter followed by the recognizer over the
region list. -/
theorem pipelineTwoStage_eq_map {α γ δ : Type} (conv : α → γ) (recog : γ → δ)
    (regions : List α) (order1 order2 : List ℕ)
    (h1 : order1.Perm (List.range regions.length))
    (h2 : order2.Perm (List.range regions.length)) :
    pipelineTwoStage conv recog regions order1 order2
      = some (regions.map (fun r => recog (conv r))) := by
  unfold pipelineTwoStage
  rw [poolImapOrdered_eq_map conv regions order1 h1]
  show poolImapOrdered recog (regions.map conv) order2
    = some (regions.map (fun r => recog (conv r)))
  have h2l : order2.Perm (List.range (regions.map conv).length) := by
    rw [List.length_map]
    exact h2
  rw [poolImapOrdered_eq_map recog (regions.map conv) order2 h2l,
    List.map_map]
  rfl

/-- C2 witness: both stages completing in scrambled orders still produce
the forward-ordered sequential-map result. -/
theorem pipelineTwoStage_eq_map_inst :
    pipelineTwoStage (fun n : ℕ => n + 1) (fun n : ℕ => 2 * n)
      [10, 20, 30] [2, 0, 1] [1, 2, 0] = some [22, 42, 62] := by
  have h := pipelineTwoStage_eq_map (fun n : ℕ => n + 1) (fun n : ℕ => 2 * n)
    [10, 20, 30] [2, 0, 1] [1, 2, 0] (by decide) (by decide)
  simpa using h


lemma poolImapRun_error_of_fail {α β : Type} (worker : α → Except PyExn β) :
    ∀ (xs : List α) (i : ℕ),
      (∀ x ∈ xs, worker x ≠ .error PyExn.keyboardInterrupt) →
      (∃ x ∈ xs, worker x = .error PyExn.calledProcessError) →
      poolImapRun worker none i xs = .error PyExn.calledProcessError
  | [], i => by
    intro _ h
    simp at h
  | x :: xs, i => by
    intro hki hex
    simp only [poolImapRun]
    rw [if_neg (by simp)]
    cases hw : worker x with
    | error e =>
      cases e with
      | keyboardInterrupt => exact absurd hw (hki x (by simp))
      | calledProcessError => rfl
    | ok b =>
      obtain ⟨y, hy, hwy⟩ := hex
      rcases List.mem_cons.mp hy with rfl | hy2
      · rw [hw] at hwy
        simp at hwy
      · rw [poolImapRun_error_of_fail worker xs (i + 1)
          (fun z hz => hki z (by simp [hz])) ⟨y, hy2, hwy⟩]
        rfl

/-- C3: the claim as amended.  A clip-extraction failure (the external
tool exits non-zero) raises CalledProcessError inside the worker, which
FLACConverter catches only for KeyboardInterrupt; the pool re-raises it
at delivery and, generate_subtitles catching only KeyboardInterrupt, the
extraction stage terminates: the whole call aborts with the error, no
region is treated as absent, no recognition stage runs and no subtitle
file is written. -/
theorem generate_subtitles_conv_error_propagates
    (regions : List (ℚ × ℚ))
    (convWorker : (ℚ × ℚ) → Except PyExn (Option Clip))
    (recogWorker : Option Clip → Except PyExn (Option String))
    (dest : String)
    (hki : ∀ r ∈ regions, convWorker r ≠ .error PyExn.keyboardInterrupt)
    (hfail : ∃ r ∈ regions, convWorker r = .error PyExn.calledProcessError) :
    generate_subtitles regions convWorker recogWorker none none dest
      = ([], .error PyExn.calledProcessError) := by
  obtain ⟨r0, hr0, hw0⟩ := hfail
  cases regions with
  | nil => simp at hr0
  | cons r rs =>
    simp only [generate_subtitles]
    rw [poolImapRun_error_of_fail convWorker (r :: rs) 0 hki ⟨r0, hr0, hw0⟩]

/-- C3 witness: a two-region list whose first conversion fails makes
generate_subtitles propagate the CalledProcessError with no effects. -/
theorem generate_subtitles_conv_error_propagates_inst :
    generate_subtitles [((0 : ℚ), (1 : ℚ)), ((2 : ℚ), (3 : ℚ))]
      (fun r => if r.1 = 0 then .error PyExn.calledProcessError
        else .ok (some ([7] : Clip)))
      (fun _ => .ok (some "x")) none none "out"
      = ([], .error PyExn.calledProcessError) := by
  apply generate_subtitles_conv_error_propagates
  · intro r hr
    fin_cases hr
    · with_unfolding_all decide
    · with_unfolding_all decide
  · refine ⟨((0 : ℚ), (1 : ℚ)), by simp, by with_unfolding_all decide⟩

/-- C3 counterexample: with an extraction failure on the first region,
the extraction stage does terminate (contrary to the claim): the call
evaluates to the propagated CalledProcessError, not to a completed run
with that region's output absent. -/
theorem conv_error_terminates_stage :
    generate_subtitles [((0 : ℚ), (1 : ℚ)), ((2 : ℚ), (3 : ℚ))]
      (fun r => if r = ((0 : ℚ), (1 : ℚ)) then .error PyExn.calledProcessError
        else .ok (some ([7] : Clip)))
      (fun _ => .ok (some "x")) none none "out"
      = ([], .error PyExn.calledProcessError)
    ∧ (.error PyExn.calledProcessError : Except PyExn String) ≠ .ok "out" := by
  refine ⟨?_, by decide⟩
  with_unfolding_all rfl

/-- C8: if a cancellation (KeyboardInterrupt) occurs during either
pipeline stage of generate_subtitles, the run produces only the
pool-termination effect - in particular no subtitle file write - and the
cancellation outcome propagates to the caller instead of a partial
result. -/
theorem generate_subtitles_cancel_no_write
    (regions : List (ℚ × ℚ))
    (convWorker : (ℚ × ℚ) → Except PyExn (Option Clip))
    (recogWorker : Option Clip → Except PyExn (Option String))
    (intr1 intr2 : Option ℕ) (dest : String)
    (hne : regions ≠ [])
    (h : poolImapRun convWorker intr1 0 regions
          = .error PyExn.keyboardInterrupt
       ∨ ∃ clips, poolImapRun convWorker intr1 0 regions = .ok clips
           ∧ poolImapRun recogWorker intr2 0 clips
              = .error PyExn.keyboardInterrupt) :
    generate_subtitles regions convWorker recogWorker intr1 intr2 dest
      = ([Eff.poolTerminate], .error PyExn.keyboardInterrupt)
    ∧ ∀ e ∈ (generate_subtitles regions convWorker recogWorker
          intr1 intr2 dest).1, ∀ d2 ts, e ≠ Eff.writeFile d2 ts := by
  cases regions with
  | nil => exact absurd rfl hne
  | cons r rs =>
    have hmain : generate_subtitles (r :: rs) convWorker recogWorker
        intr1 intr2 dest
        = ([Eff.poolTerminate], .error PyExn.keyboardInterrupt) := by
      rcases h with h | ⟨clips, hc, h⟩
      · simp only [generate_subtitles]
        rw [h]
      · simp only [generate_subtitles]
        rw [hc]
        show (match poolImapRun recogWorker intr2 0 clips with
          | Except.error PyExn.keyboardInterrupt =>
            ([Eff.poolTerminate],
              (Except.error PyExn.keyboardInterrupt : Except PyExn String))
          | Except.error e => ([], Except.error e)
          | Except.ok ts =>
            ([Eff.writeFile dest (timedSubtitles (r :: rs) ts),
              Eff.removeAudio], Except.ok dest))
          = ([Eff.poolTerminate], Except.error PyExn.keyboardInterrupt)
        rw [h]
    refine ⟨hmain, ?_⟩
    rw [hmain]
    intro e he d2 ts
    simp only [List.mem_singleton] at he
    subst he
    simp

/-- C8 witness: an interrupt at iteration 1 of the extraction stage of a
two-region list yields pool termination and the propagated interrupt, and
no file write. -/
theorem generate_subtitles_cancel_no_write_inst :
    generate_subtitles [((0 : ℚ), (1 : ℚ)), ((2 : ℚ), (3 : ℚ))]
      (fun _ => .ok (some ([1] : Clip))) (fun _ => .ok (some "x"))
      (some 1) none "out"
      = ([Eff.poolTerminate], .error PyExn.keyboardInterrupt) :=
  (generate_subtitles_cancel_no_write _ _ _ _ _ _ (by simp)
    (Or.inl (by rfl))).1

/-- C10: the per-item worker callables FLACConverter and SpeechRecognizer
never propagate a KeyboardInterrupt to their caller: whatever the
subprocess or network behaviour, the result is never the interrupt error;
when the interrupt fires during the body both return the absent result
None; and the pipeline's timed-subtitles filter drops an absent transcript
exactly as it drops any other falsy transcript (no pair with an absent
transcript survives). -/
theorem workers_swallow_interrupt :
    (∀ ev, FLACConverter.call ev ≠ .error PyExn.keyboardInterrupt)
    ∧ FLACConverter.call SubprocessEvent.interrupted = .ok none
    ∧ (∀ retries env,
        SpeechRecognizer.call retries env ≠ .error PyExn.keyboardInterrupt)
    ∧ (∀ retries env,
        SpeechRecognizer.loop env retries 0
          = .error PyExn.keyboardInterrupt →
        SpeechRecognizer.call retries env = .ok none)
    ∧ (∀ (rs : List (ℚ × ℚ)) (ts : List (Option String)) (r : ℚ × ℚ),
        (r, (none : Option String)) ∉ timedSubtitles rs ts) := by
  refine ⟨?_, rfl, ?_, ?_, ?_⟩
  · intro ev
    cases ev <;>
      simp [FLACConverter.call, FLACConverter.body, tryCatchKI, Except.map]
  · intro retries env
    unfold SpeechRecognizer.call tryCatchKI
    cases hb : (SpeechRecognizer.loop env retries 0).map Prod.fst with
    | ok v => simp
    | error e => cases e <;> simp
  · intro retries env h
    unfold SpeechRecognizer.call tryCatchKI
    rw [show (SpeechRecognizer.loop env retries 0).map Prod.fst
      = .error PyExn.keyboardInterrupt by rw [h]; rfl]
  · intro rs ts r hmem
    simp [timedSubtitles, List.mem_filter, transcriptTruthy] at hmem

/-- C10 witness: the converter and the recognizer both return ok-None
when interrupted. -/
theorem workers_swallow_interrupt_inst :
    FLACConverter.call SubprocessEvent.interrupted = .ok none
    ∧ SpeechRecognizer.call 2 (fun _ => Attempt.interrupted) = .ok none :=
  ⟨workers_swallow_interrupt.2.1,
    workers_swallow_interrupt.2.2.2.1 2 (fun _ => Attempt.interrupted) rfl⟩

end Autosub
